import Mathlib

/-!
Verification development for the Trading Journal application.

The TypeScript sources are shallowly embedded in Lean:

* JavaScript numbers are modelled as exact rationals (and as reals where the
  code calls transcendental functions such as Math.exp and Math.sqrt);
* JavaScript strings are modelled as Lean strings, with the handful of string
  operations the code uses (trim, toLowerCase, toUpperCase, includes, split,
  replace, localeCompare) re-implemented over the underlying character lists
  so that they compute by kernel reduction;
* the stable Array.prototype.sort is modelled by List.mergeSort, which is the
  same stable sorting specification;
* fallible code (throw) is modelled with Except, and absent values
  (undefined / null) with Option;
* the nondeterministic trade-id generator (Date.now + Math.random) and the
  i18next translation function are passed in as explicit parameters.
-/

/-! ## JavaScript string primitives -/

/-- Whitespace characters removed by JavaScript String.prototype.trim. -/
def isJsSpace (c : Char) : Bool :=
  c = ' ' || c = '\t' || c = '\n' || c = '\r'

/-- Model of String.prototype.trim. -/
def jsTrim (s : String) : String :=
  ⟨((s.data.dropWhile isJsSpace).reverse.dropWhile isJsSpace).reverse⟩

/-- ASCII lower-casing of a single character, as toLowerCase acts on the
ASCII range (the only range the app compares against). -/
def jsLowChar (c : Char) : Char :=
  if 65 ≤ c.toNat ∧ c.toNat ≤ 90 then Char.ofNat (c.toNat + 32) else c

/-- Model of String.prototype.toLowerCase on ASCII data. -/
def jsToLower (s : String) : String :=
  ⟨s.data.map jsLowChar⟩

/-- ASCII upper-casing of a single character, as toUpperCase acts on the
ASCII range. -/
def jsUpChar (c : Char) : Char :=
  if 97 ≤ c.toNat ∧ c.toNat ≤ 122 then Char.ofNat (c.toNat - 32) else c

/-- Model of String.prototype.toUpperCase on ASCII data. -/
def jsToUpper (s : String) : String :=
  ⟨s.data.map jsUpChar⟩

/-- Character-list comparison: true when the first list is a leading block
of the second. -/
def leadsList : List Char → List Char → Bool
  | [], _ => true
  | _ :: _, [] => false
  | a :: as, b :: bs => a = b && leadsList as bs

/-- Model of String.prototype.includes (substring containment), over
character lists. -/
def containsList : List Char → List Char → Bool
  | hay, needle =>
    match hay with
    | [] => needle.isEmpty
    | _ :: t => leadsList needle hay || containsList t needle

/-- Model of String.prototype.includes. -/
def jsIncludes (hay needle : String) : Bool :=
  containsList hay.data needle.data

/-- Model of String.prototype.startsWith. -/
def jsStartsWith (s pre : String) : Bool :=
  leadsList pre.data s.data

/-- Model of String.prototype.endsWith. -/
def jsEndsWith (s suf : String) : Bool :=
  leadsList suf.data.reverse s.data.reverse

/-- Splits a character list at every occurrence of the separator character,
keeping empty segments, as JavaScript split with a one-character string
separator does. -/
def splitChar (sep : Char) : List Char → List (List Char)
  | [] => [[]]
  | c :: cs =>
    let rest := splitChar sep cs
    if c = sep then [] :: rest
    else
      match rest with
      | [] => [[c]]
      | seg :: segs => (c :: seg) :: segs

/-- Model of String.prototype.split with a one-character separator. -/
def jsSplit (s : String) (sep : Char) : List String :=
  (splitChar sep s.data).map (fun l => ⟨l⟩)

/-- Lexicographic comparison of character lists by code point; this models
the ordering localeCompare induces on the digit/hyphen/colon date-time keys
the app compares. -/
def lexLe : List Char → List Char → Bool
  | [], _ => true
  | _ :: _, [] => false
  | a :: as, b :: bs => if a = b then lexLe as bs else decide (a < b)

/-! ## Data model (src/types.ts) -/

/-- Direction of a trade: long corresponds to a buy row, short to a sell
row. -/
inductive TradeType
  | long
  | short
deriving DecidableEq, Repr

/-- One value of the tags record of a trade: a category maps either to a
single string or to an array of strings, mirroring the TradeTags interface
where confidence is a string and every other category is a string array. -/
inductive TagValue
  | one (s : String)
  | many (l : List String)
deriving DecidableEq, Repr

/-- The Trade record of src/types.ts. P&L is modelled as an exact
rational. The tags record is an insertion-ordered association list. -/
structure Trade where
  id : String
  date : String
  time : String
  pair : String
  pnl : ℚ
  type : Option TradeType
  notes : String
  photos : List String
  tags : List (String × TagValue)
  rating : Option ℕ
deriving DecidableEq, Repr

/-- Convenience constructor for trades used in concrete examples. -/
def mkTrade (date time : String) (pnl : ℚ) : Trade :=
  ⟨"", date, time, "", pnl, none, "", [], [], none⟩

/-- Streak kind. -/
inductive StreakKind
  | win
  | loss
deriving DecidableEq, Repr

/-- The Streak record of src/types.ts. -/
structure Streak where
  kind : StreakKind
  length : ℕ
deriving DecidableEq, Repr

/-! ## Streak detection (useTradeCycleTracker, src/hooks) -/

/-- Chronological sort key of a trade: date concatenated with time. The
source appends the empty string when time is falsy, which coincides with
plain concatenation because the only falsy string is the empty one. -/
def jsKey (t : Trade) : List Char :=
  (t.date ++ t.time).data

/-- The ascending localeCompare comparator of useTradeCycleTracker. -/
def tradeLe (a b : Trade) : Bool :=
  lexLe (jsKey a) (jsKey b)

/-- The streak predicate checked while walking backward. -/
def matchesKind (kind : StreakKind) (t : Trade) : Bool :=
  match kind with
  | StreakKind.loss => decide (t.pnl < 0)
  | StreakKind.win => decide (0 < t.pnl)

/-- The body of useTradeCycleTracker after sorting: look at the three most
recent trades, and when they share the sign of the last trade walk backward
counting the run. -/
def detectStreak (sorted : List Trade) : Option Streak :=
  if sorted.length < 3 then none
  else
    let recent := sorted.drop (sorted.length - 3)
    match recent.getLast? with
    | none => none
    | some last =>
      let isLosing := decide (last.pnl < 0) && recent.all (matchesKind StreakKind.loss)
      let isWinning := decide (0 < last.pnl) && recent.all (matchesKind StreakKind.win)
      if isLosing || isWinning then
        let kind := if isLosing then StreakKind.loss else StreakKind.win
        let run := (sorted.reverse.takeWhile (matchesKind kind)).length
        if 3 ≤ run then some ⟨kind, run⟩ else none
      else none

/-- Model of useTradeCycleTracker: guard on the trade count, sort a copy of
the list chronologically with the stable sort, then detect the streak. -/
def useTradeCycleTracker (trades : List Trade) : Option Streak :=
  if trades.length < 3 then none
  else detectStreak (trades.mergeSort tradeLe)

/-- Modelled from the spec words: from the most recent trade walk backward
while every P&L sign strictly matches the sign of the most recent trade (a
zero P&L breaks the run), and report the trailing maximal run only when the
list has at least 3 trades and the run is at least 3 long. -/
def streakSpec (trades : List Trade) : Option Streak :=
  if trades.length < 3 then none
  else
    match trades.getLast? with
    | none => none
    | some last =>
      if 0 < last.pnl then
        let run := (trades.reverse.takeWhile (matchesKind StreakKind.win)).length
        if 3 ≤ run then some ⟨StreakKind.win, run⟩ else none
      else if last.pnl < 0 then
        let run := (trades.reverse.takeWhile (matchesKind StreakKind.loss)).length
        if 3 ≤ run then some ⟨StreakKind.loss, run⟩ else none
      else none

/-- A sorted list whose most recent 3 trades lose and whose 4th most recent
wins. -/
def tradesLLLW : List Trade :=
  [mkTrade "2024-01-01" "10:00" 5, mkTrade "2024-01-01" "11:00" (-1),
   mkTrade "2024-01-01" "12:00" (-2), mkTrade "2024-01-01" "13:00" (-3)]

/-- Four trades sharing one date-then-time key: a win listed first, then
three losses. -/
def tiedKeysA : List Trade :=
  [mkTrade "2024-01-01" "10:00" 1, mkTrade "2024-01-01" "10:00" (-1),
   mkTrade "2024-01-01" "10:00" (-1), mkTrade "2024-01-01" "10:00" (-1)]

/-- The same four trades with the win listed last. -/
def tiedKeysB : List Trade :=
  [mkTrade "2024-01-01" "10:00" (-1), mkTrade "2024-01-01" "10:00" (-1),
   mkTrade "2024-01-01" "10:00" (-1), mkTrade "2024-01-01" "10:00" 1]

/-- Three trades with pairwise-distinct keys, out of order. -/
def distinctKeysA : List Trade :=
  [mkTrade "2024-01-02" "10:00" 2, mkTrade "2024-01-01" "10:00" 3,
   mkTrade "2024-01-03" "10:00" 4]

/-- A rotation of distinctKeysA. -/
def distinctKeysB : List Trade :=
  [mkTrade "2024-01-03" "10:00" 4, mkTrade "2024-01-02" "10:00" 2,
   mkTrade "2024-01-01" "10:00" 3]

/-! ## Offline analysis (src/utils/offlineAnalysis.ts)

The i18next translation function is modelled as an explicit parameter of
shape key-and-interpolation-arguments to string; the currency formatter as
a rational-to-string parameter. Number display formatting inside narrative
strings is abstracted by toString, since no claim inspects those digits. -/

/-- An actionable insight record. -/
structure ActionableInsight where
  topic : String
  pattern : String
  recommendation : String
  relatedTags : List String
deriving DecidableEq, Repr

/-- A key observation record. -/
structure KeyObservation where
  topic : String
  text : String
deriving DecidableEq, Repr

/-- Per-tag accumulator of analyzeTradesOffline. -/
structure TagStats where
  pnl : ℚ
  wins : ℕ
  losses : ℕ
  count : ℕ
deriving DecidableEq, Repr

/-- JavaScript Map.prototype.set on an insertion-ordered association list:
updating an existing key keeps its position, a new key is appended. -/
def setAssoc {κ ν : Type} [DecidableEq κ] : List (κ × ν) → κ → ν → List (κ × ν)
  | [], k, v => [(k, v)]
  | (k0, v0) :: rest, k, v =>
    if k0 = k then (k, v) :: rest else (k0, v0) :: setAssoc rest k v

/-- JavaScript Map.prototype.get with a default for a missing key. -/
def getAssoc {κ ν : Type} [DecidableEq κ] (m : List (κ × ν)) (k : κ) (dflt : ν) : ν :=
  match m.find? (fun p => p.1 = k) with
  | some p => p.2
  | none => dflt

/-- Comparison of a possibly-infinite profit factor with a finite bound,
JavaScript semantics: Infinity is greater than every finite number. -/
def optGtQ (v : Option ℚ) (x : ℚ) : Bool :=
  match v with
  | some q => decide (x < q)
  | none => true

/-- Strict less-than of a possibly-infinite value and a finite bound:
Infinity is less than nothing. -/
def optLtQ (v : Option ℚ) (x : ℚ) : Bool :=
  match v with
  | some q => decide (q < x)
  | none => false

/-- The win-rate formula of analyzeTradesOffline, as a percentage. -/
def winRateQ (trades : List Trade) : ℚ :=
  if 0 < trades.length then
    (((trades.filter fun t => decide (0 < t.pnl)).length : ℚ) / trades.length) * 100
  else 0

/-- Total P&L over winning trades. -/
def totalWinPnl (trades : List Trade) : ℚ :=
  ((trades.filter fun t => decide (0 < t.pnl)).map Trade.pnl).sum

/-- Total P&L over losing trades (a non-positive number). -/
def totalLossPnl (trades : List Trade) : ℚ :=
  ((trades.filter fun t => decide (t.pnl < 0)).map Trade.pnl).sum

/-- The profit factor: |win P&L / loss P&L| when there are losses, and
Infinity (modelled none) otherwise. -/
def profitFactorQ (trades : List Trade) : Option ℚ :=
  if totalLossPnl trades ≠ 0 then some |totalWinPnl trades / totalLossPnl trades|
  else none

/-- Display form of a percentage, abstracting toFixed(0). -/
def formatPercent (v : ℚ) : String :=
  toString (round v) ++ "%"

/-- Model of analyzePerformanceTrend: with at least twice the 20-trade
window of history, compare the first 20 trades of the list against the
overall win rate and profit factor and emit a degradation insight when the
win-rate drop exceeds 15 points or the recent profit factor falls below
0.7 times a finite overall profit factor. -/
def analyzePerformanceTrend (t : String → List String → String)
    (trades : List Trade) (overallWinRate : ℚ) (overallPF : Option ℚ) :
    Option ActionableInsight :=
  if trades.length < 40 then none
  else
    let recent := trades.take 20
    let recentWinRate := winRateQ recent
    let recentPF := profitFactorQ recent
    let degraded := decide (15 < overallWinRate - recentWinRate) ||
      (match overallPF, recentPF with
       | some pf, some rpf => decide (rpf < pf * (7/10))
       | some _, none => false
       | none, _ => false)
    if degraded then
      some ⟨"performance",
        t "aiInsights.offline.trendPattern" [toString (20 : ℕ), formatPercent recentWinRate],
        t "aiInsights.offline.trendRec" [], []⟩
    else none

/-! ### Golden hour -/

/-- Number of days in a month of the proleptic Gregorian calendar. -/
def daysInMonth (y m : ℕ) : ℕ :=
  if m = 2 then
    if (y % 4 = 0 ∧ y % 100 ≠ 0) ∨ y % 400 = 0 then 29 else 28
  else if m = 4 ∨ m = 6 ∨ m = 9 ∨ m = 11 then 30 else 31

/-- Numeric value of an ASCII digit. -/
def digitVal (c : Char) : ℕ :=
  c.toNat - 48

/-- Parses a YYYY-MM-DD character list. -/
def parseDateChars : List Char → Option (ℕ × ℕ × ℕ)
  | [y1, y2, y3, y4, c1, m1, m2, c2, d1, d2] =>
    if c1 = '-' ∧ c2 = '-' ∧ y1.isDigit ∧ y2.isDigit ∧ y3.isDigit ∧ y4.isDigit ∧
        m1.isDigit ∧ m2.isDigit ∧ d1.isDigit ∧ d2.isDigit then
      some (digitVal y1 * 1000 + digitVal y2 * 100 + digitVal y3 * 10 + digitVal y4,
        digitVal m1 * 10 + digitVal m2, digitVal d1 * 10 + digitVal d2)
    else none
  | _ => none

/-- Parses an HH:mm character list with in-range fields. -/
def parseTimeChars : List Char → Option ℕ
  | [h1, h2, c, m1, m2] =>
    if c = ':' ∧ h1.isDigit ∧ h2.isDigit ∧ m1.isDigit ∧ m2.isDigit then
      let h := digitVal h1 * 10 + digitVal h2
      let mi := digitVal m1 * 10 + digitVal m2
      if h ≤ 23 ∧ mi ≤ 59 then some h else none
    else none
  | _ => none

/-- Model of new Date(date + T + time).getHours(): the local hour for a
well-formed date-time, and none (the NaN hour of an Invalid Date) for any
other input, in particular for an empty or missing time. -/
def jsGetHours (date time : String) : Option ℕ :=
  match parseDateChars date.data with
  | none => none
  | some (y, m, d) =>
    if 1 ≤ m ∧ m ≤ 12 ∧ 1 ≤ d ∧ d ≤ daysInMonth y m then parseTimeChars time.data
    else none

/-- Per-hour accumulator of findGoldenHour. -/
structure HourStats where
  pnl : ℚ
  count : ℕ
deriving DecidableEq, Repr

/-- The hourly reduce of findGoldenHour; the key none is the NaN hour that
every trade with an unparsable date-time lands in (all NaN keys collide in
a JavaScript Map). -/
def hourlyStats (trades : List Trade) : List (Option ℕ × HourStats) :=
  trades.foldl (fun acc tr =>
    let h := jsGetHours tr.date tr.time
    let s := getAssoc acc h ⟨0, 0⟩
    setAssoc acc h ⟨s.pnl + tr.pnl, s.count + 1⟩) []

/-- Hours with at least 5 trades, with average P&L, sorted by average P&L
descending. -/
def significantHours (trades : List Trade) : List (Option ℕ × ℚ) :=
  (((hourlyStats trades).filter fun p => 5 ≤ p.2.count).map
    fun p => (p.1, p.2.pnl / (p.2.count : ℚ))).mergeSort
    fun a b => decide (b.2 ≤ a.2)

/-- The hour findGoldenHour singles out, when any: the significant hour
with the highest average P&L, provided that average is positive. -/
def goldenHourChoice (trades : List Trade) : Option (Option ℕ × ℚ) :=
  match (significantHours trades).head? with
  | some best => if 0 < best.2 then some best else none
  | none => none

/-- Display of the chosen hour; the NaN hour renders as the string NaN. -/
def hourText : Option ℕ → String
  | some h => toString h
  | none => "NaN"

/-- Model of findGoldenHour. -/
def findGoldenHour (t : String → List String → String) (fc : ℚ → String)
    (trades : List Trade) : Option ActionableInsight :=
  match goldenHourChoice trades with
  | some best =>
    some ⟨"timing",
      t "aiInsights.offline.goldenHourPattern"
        [hourText best.1 ++ ":00", hourText ((fun h => h + 1) <$> best.1) ++ ":00", fc best.2],
      t "aiInsights.offline.goldenHourRec" [], []⟩
  | none => none

/-! ### Consistency score -/

/-- The P&L series of a trade list. -/
def pnlsOf (trades : List Trade) : List ℚ :=
  trades.map Trade.pnl

/-- Arithmetic mean. -/
def meanQ (l : List ℚ) : ℚ :=
  l.sum / (l.length : ℚ)

/-- Population variance (mean squared deviation). -/
def varianceQ (l : List ℚ) : ℚ :=
  (l.map fun x => (x - meanQ l) ^ 2).sum / (l.length : ℚ)

/-- Mean absolute value. -/
def avgAbsQ (l : List ℚ) : ℚ :=
  (l.map fun x => |x|).sum / (l.length : ℚ)

/-- Model of calculateConsistency: 0 below 5 trades; 1 when the mean
absolute P&L vanishes; otherwise round(10 * exp(-0.6 * cv)) clamped to
[1, 10], where cv is the population standard deviation of P&L divided by
the mean absolute P&L. Math.sqrt and Math.exp make this a real-valued
computation. -/
noncomputable def calculateConsistency (trades : List Trade) : ℤ :=
  if trades.length < 5 then 0
  else if avgAbsQ (pnlsOf trades) = 0 then 1
  else
    max 1 (min 10 (round ((10 : ℝ) *
      Real.exp (-(3 / 5 : ℝ) *
        (Real.sqrt ((varianceQ (pnlsOf trades) : ℝ)) / ((avgAbsQ (pnlsOf trades) : ℝ)))))))

/-- Modelled from the spec words: the coefficient of variation of the
P&L series, all computed over the reals: population standard deviation
divided by the mean absolute P&L. -/
noncomputable def specCV (trades : List Trade) : ℝ :=
  Real.sqrt ((((trades.map fun tr => ((tr.pnl : ℝ))).map
      fun x => (x - (trades.map fun tr => ((tr.pnl : ℝ))).sum /
        ((trades.map fun tr => ((tr.pnl : ℝ))).length : ℝ)) ^ 2).sum) /
      ((trades.map fun tr => ((tr.pnl : ℝ))).length : ℝ)) /
    (((trades.map fun tr => ((tr.pnl : ℝ))).map fun x => |x|).sum /
      ((trades.map fun tr => ((tr.pnl : ℝ))).length : ℝ))

/-- Modelled from the spec words: score = round(10 * e^(-0.6 * CV)),
clamped to [1, 10]. -/
noncomputable def specConsistencyScore (trades : List Trade) : ℤ :=
  max 1 (min 10 (round ((10 : ℝ) * Real.exp (-(3 / 5 : ℝ) * specCV trades))))

/-! ### Performance grade -/

/-- Grade letters. -/
inductive GradeLetter
  | A
  | B
  | C
  | D
deriving DecidableEq, Repr

/-- The PerformanceGrade record. -/
structure PerformanceGrade where
  grade : GradeLetter
  summary : String
deriving DecidableEq, Repr

/-- The keyMetrics record of the analysis result. -/
structure KeyMetrics where
  consistencyScore : ℤ
  profitFactor : Option ℚ
  winRate : ℚ
  totalPnl : ℚ
  tradeCount : ℕ
  avgWin : ℚ
  avgLoss : ℚ
deriving DecidableEq, Repr

/-- Model of calculatePerformanceGrade: weighted profit-factor, win-rate
and consistency sub-scores (an infinite profit factor scores 10). -/
def calculatePerformanceGrade (t : String → List String → String)
    (m : KeyMetrics) : PerformanceGrade :=
  let pfScore : ℚ :=
    match m.profitFactor with
    | some pf =>
      if 2 < pf then 10 else if 3 / 2 < pf then 8 else if 6 / 5 < pf then 6
      else if 1 < pf then 4 else 2
    | none => 10
  let wrScore : ℚ :=
    if 65 < m.winRate then 10 else if 55 < m.winRate then 8
    else if 50 < m.winRate then 6 else if 40 < m.winRate then 4 else 2
  let totalScore : ℚ :=
    pfScore * (9 / 20) + wrScore * (7 / 20) + (m.consistencyScore : ℚ) * (1 / 5)
  if 17 / 2 < totalScore then ⟨GradeLetter.A, t "aiInsights.grade.summaryA" []⟩
  else if 7 < totalScore then ⟨GradeLetter.B, t "aiInsights.grade.summaryB" []⟩
  else if 5 < totalScore then ⟨GradeLetter.C, t "aiInsights.grade.summaryC" []⟩
  else ⟨GradeLetter.D, t "aiInsights.grade.summaryD" []⟩

/-! ### Tag aggregation -/

/-- Flattening of the tags record as analyzeTradesOffline does it:
category:value strings, array values expanded, falsy scalar values
dropped. -/
def flattenTags (tags : List (String × TagValue)) : List String :=
  tags.flatMap fun p =>
    match p.2 with
    | TagValue.many l => l.map fun v => p.1 ++ ":" ++ v
    | TagValue.one s => if s ≠ "" then [p.1 ++ ":" ++ s] else []

/-- The tag-statistics Map of analyzeTradesOffline. -/
def tagStatsMap (trades : List Trade) : List (String × TagStats) :=
  trades.foldl (fun acc tr =>
    (flattenTags tr.tags).foldl (fun acc tag =>
      let s := getAssoc acc tag ⟨0, 0, 0, 0⟩
      setAssoc acc tag
        ⟨s.pnl + tr.pnl, s.wins + (if 0 < tr.pnl then 1 else 0),
          s.losses + (if tr.pnl < 0 then 1 else 0), s.count + 1⟩) acc) []

/-- A significant-tag entry with derived win rate and average P&L. -/
structure SigTag where
  tag : String
  pnl : ℚ
  wins : ℕ
  losses : ℕ
  count : ℕ
  winRate : ℚ
  avgPnl : ℚ
deriving DecidableEq, Repr

/-- Tags with at least MIN_TAG_TRADES = 3 trades, in Map insertion
order. -/
def significantTags (trades : List Trade) : List SigTag :=
  ((tagStatsMap trades).filter fun p => 3 ≤ p.2.count).map fun p =>
    ⟨p.1, p.2.pnl, p.2.wins, p.2.losses, p.2.count,
      if 0 < p.2.count then ((p.2.wins : ℚ) / (p.2.count : ℚ)) * 100 else 0,
      if 0 < p.2.count then p.2.pnl / (p.2.count : ℚ) else 0⟩

/-- Profitable significant tags, sorted by total P&L descending, top 5. -/
def profitableTags (trades : List Trade) : List SigTag :=
  (((significantTags trades).filter fun e => decide (0 < e.pnl)).mergeSort
    fun a b => decide (b.pnl ≤ a.pnl)).take 5

/-- Unprofitable significant tags, sorted by total P&L ascending, top 5. -/
def unprofitableTags (trades : List Trade) : List SigTag :=
  (((significantTags trades).filter fun e => decide (e.pnl < 0)).mergeSort
    fun a b => decide (a.pnl ≤ b.pnl)).take 5

/-- The TagStat record reported in tagPerformance. -/
structure TagStat where
  tag : String
  totalPnl : ℚ
  tradeCount : ℕ
  winRate : ℚ
deriving DecidableEq, Repr

/-- The tagPerformance block of the analysis result. -/
structure TagPerformanceLists where
  profitable : List TagStat
  unprofitable : List TagStat
deriving DecidableEq, Repr

def sigTagToStat (e : SigTag) : TagStat :=
  ⟨e.tag, e.pnl, e.count, e.winRate⟩

/-! ### Full offline result and the orchestrator merge -/

/-- The AIAnalysisResult record of src/types.ts. -/
structure AIAnalysisResult where
  overallSummary : String
  strengths : List String
  weaknesses : List String
  actionableInsights : List ActionableInsight
  keyObservations : List KeyObservation
  performanceGrade : PerformanceGrade
  keyMetrics : KeyMetrics
  tagPerformance : Option TagPerformanceLists

/-- Model of analyzeRiskProfile. -/
def analyzeRiskProfile (t : String → List String → String)
    (avgWin avgLoss winRate : ℚ) : KeyObservation :=
  let rrRatio : Option ℚ := if avgLoss ≠ 0 then some |avgWin / avgLoss| else none
  let profileKey :=
    if optGtQ rrRatio (5 / 2) ∧ winRate < 45 then "riskProfile_sniper"
    else if optLtQ rrRatio (3 / 2) ∧ 55 < winRate then "riskProfile_scalper"
    else if optLtQ rrRatio (6 / 5) ∧ winRate < 45 then "riskProfile_highRisk"
    else if optGtQ rrRatio 2 ∧ 50 < winRate then "riskProfile_effective"
    else "riskProfile_balanced"
  ⟨"risk", t ("aiInsights.offline." ++ profileKey)
    [(match rrRatio with | some q => toString q | none => "N/A"), formatPercent winRate]⟩

/-- Model of analyzeTradesOffline, assembling the whole result. -/
noncomputable def analyzeTradesOffline (t : String → List String → String)
    (fc : ℚ → String) (trades : List Trade) : AIAnalysisResult :=
  let totalPnl := (trades.map Trade.pnl).sum
  let totalWins := (trades.filter fun tr => decide (0 < tr.pnl)).length
  let totalLosses := (trades.filter fun tr => decide (tr.pnl < 0)).length
  let winRate := winRateQ trades
  let avgWin : ℚ := if 0 < totalWins then totalWinPnl trades / totalWins else 0
  let avgLoss : ℚ := if 0 < totalLosses then totalLossPnl trades / totalLosses else 0
  let profitFactor := profitFactorQ trades
  let strengths :=
    (if 55 < winRate then [t "aiInsights.offline.strengthWinRate" [formatPercent winRate]] else []) ++
    (if optGtQ profitFactor (3 / 2) then
      [t "aiInsights.offline.strengthProfitFactor"
        [(match profitFactor with | some q => toString q | none => "Infinity")]] else [])
  let weaknesses :=
    (if winRate < 45 then [t "aiInsights.offline.weaknessWinRate" [formatPercent winRate]] else []) ++
    (if optLtQ profitFactor 1 then
      [t "aiInsights.offline.weaknessProfitFactor"
        [(match profitFactor with | some q => toString q | none => "Infinity")]] else [])
  let sortedDesc := (significantTags trades).mergeSort fun a b => decide (b.pnl ≤ a.pnl)
  let strengthTagInsights := (sortedDesc.take 1).filterMap fun e =>
    if 0 < e.pnl then
      some (ActionableInsight.mk "strategy"
        (t "aiInsights.offline.strengthTag" [e.tag, fc e.pnl])
        (t "aiInsights.offline.strengthTagRec" []) [e.tag])
    else none
  let sortedAsc := sortedDesc.mergeSort fun a b => decide (a.pnl ≤ b.pnl)
  let weaknessTagInsights := (sortedAsc.take 1).filterMap fun e =>
    if e.pnl < 0 then
      some (ActionableInsight.mk "strategy"
        (t "aiInsights.offline.weaknessTag" [e.tag, fc e.pnl])
        (t "aiInsights.offline.weaknessTagRec" []) [e.tag])
    else none
  let mistakeTags := sortedAsc.filter fun e => jsStartsWith e.tag "mistakes:"
  let mistakeInsights :=
    match (mistakeTags.mergeSort fun a b => decide (a.pnl ≤ b.pnl)).head? with
    | some w =>
      if w.pnl < 0 then
        [ActionableInsight.mk "risk"
          (t "aiInsights.offline.patternMistake" [w.tag, fc w.pnl])
          (t "aiInsights.offline.recommendationMistake" []) [w.tag]]
      else []
    | none => []
  let actionableInsights :=
    strengthTagInsights ++ weaknessTagInsights ++ mistakeInsights ++
    (analyzePerformanceTrend t trades winRate profitFactor).toList ++
    (findGoldenHour t fc trades).toList
  let keyMetrics : KeyMetrics :=
    ⟨calculateConsistency trades, profitFactor, winRate, totalPnl, trades.length,
      avgWin, avgLoss⟩
  { overallSummary := t "aiInsights.offline.summary"
      [(if 0 < totalPnl then t "common.profitable" [] else t "common.unprofitable" []),
        toString trades.length, formatPercent winRate]
    strengths := strengths
    weaknesses := weaknesses
    actionableInsights := actionableInsights
    keyObservations :=
      [⟨"general", t "aiInsights.offline.observationOverall"
          [toString trades.length, fc totalPnl]⟩,
        analyzeRiskProfile t avgWin avgLoss winRate]
    performanceGrade := calculatePerformanceGrade t keyMetrics
    keyMetrics := keyMetrics
    tagPerformance := some
      ⟨(profitableTags trades).map sigTagToStat,
        (unprofitableTags trades).map sigTagToStat⟩ }

/-- The Partial AIAnalysisResult an enrichment call may return: any subset
of the result fields (JSON.parse never produces explicitly-undefined
properties, so present-or-absent is the faithful model of the spread). -/
structure PartialAIResult where
  overallSummary : Option String
  strengths : Option (List String)
  weaknesses : Option (List String)
  actionableInsights : Option (List ActionableInsight)
  keyObservations : Option (List KeyObservation)
  performanceGrade : Option PerformanceGrade
  keyMetrics : Option KeyMetrics
  tagPerformance : Option (Option TagPerformanceLists)

/-- The object-spread merge of handleAnalyze: enrichment fields override
the offline ones, after which keyMetrics, performanceGrade and
tagPerformance are re-asserted from the offline result. -/
def mergeAnalysis (offline : AIAnalysisResult) (ai : PartialAIResult) :
    AIAnalysisResult :=
  { overallSummary := ai.overallSummary.getD offline.overallSummary
    strengths := ai.strengths.getD offline.strengths
    weaknesses := ai.weaknesses.getD offline.weaknesses
    actionableInsights := ai.actionableInsights.getD offline.actionableInsights
    keyObservations := ai.keyObservations.getD offline.keyObservations
    performanceGrade := offline.performanceGrade
    keyMetrics := offline.keyMetrics
    tagPerformance := offline.tagPerformance }

/-- Model of handleAnalyze of AIAnalysisView: always run the offline
analysis; when the enrichment call succeeds merge it, otherwise fall back
to the offline result unchanged. -/
noncomputable def handleAnalyze (t : String → List String → String)
    (fc : ℚ → String) (trades : List Trade)
    (aiOutcome : Option PartialAIResult) : AIAnalysisResult :=
  let offline := analyzeTradesOffline t fc trades
  match aiOutcome with
  | none => offline
  | some ai => mergeAnalysis offline ai

/-- Five trades whose P&L is identically zero. -/
def flatZeroTrades : List Trade :=
  List.replicate 5 (mkTrade "2024-01-01" "10:00" 0)

/-- Forty trades, newest first: twenty recent losses on the later date,
twenty older wins on the earlier date. -/
def slumpTrades : List Trade :=
  List.replicate 20 (mkTrade "2024-01-02" "10:00" (-1)) ++
    List.replicate 20 (mkTrade "2024-01-01" "10:00" 1)

/-- Twenty-five trades with identical P&L of +100. -/
def steadyTrades : List Trade :=
  List.replicate 25 (mkTrade "2024-01-01" "10:00" 100)

/-- Five trades on a valid date but with an empty time value, each with
P&L +100. -/
def noTimeTrades : List Trade :=
  List.replicate 5 (mkTrade "2024-01-05" "" 100)

/-! ## Tag performance summary component (src/unnamed/part_014) -/

/-- Per-tag accumulator of the TagPerformance component. -/
structure UiTagAcc where
  totalPnl : ℚ
  tradeCount : ℕ
  winCount : ℕ
deriving DecidableEq, Repr

/-- Object.values(trade.tags).flat(): bare tag values without the category
prefix. -/
def flattenTagsUI (tags : List (String × TagValue)) : List String :=
  tags.flatMap fun p =>
    match p.2 with
    | TagValue.many l => l
    | TagValue.one s => [s]

/-- The per-tag Map of the TagPerformance component; empty-string values
are skipped by the truthiness check in the loop body. -/
def uiTagStatsMap (trades : List Trade) : List (String × UiTagAcc) :=
  trades.foldl (fun acc tr =>
    ((flattenTagsUI tr.tags).filter fun tag => tag ≠ "").foldl (fun acc tag =>
      let s := getAssoc acc tag ⟨0, 0, 0⟩
      setAssoc acc tag ⟨s.totalPnl + tr.pnl, s.tradeCount + 1,
        s.winCount + (if 0 < tr.pnl then 1 else 0)⟩) acc) []

/-- A derived tag statistic of the TagPerformance component. -/
structure UiTagStat where
  tag : String
  totalPnl : ℚ
  tradeCount : ℕ
  winCount : ℕ
  winRate : ℚ
deriving DecidableEq, Repr

/-- Tags used at least 3 times, with win rate. -/
def uiTagStats (trades : List Trade) : List UiTagStat :=
  ((uiTagStatsMap trades).map fun p =>
    UiTagStat.mk p.1 p.2.totalPnl p.2.tradeCount p.2.winCount
      (if 0 < p.2.tradeCount then
        ((p.2.winCount : ℚ) / (p.2.tradeCount : ℚ)) * 100 else 0)).filter
    fun s => 3 ≤ s.tradeCount

/-- Top 3 profitable tags of the summary component. -/
def uiTopProfitable (trades : List Trade) : List UiTagStat :=
  (((uiTagStats trades).filter fun s => decide (0 < s.totalPnl)).mergeSort
    fun a b => decide (b.totalPnl ≤ a.totalPnl)).take 3

/-- Top 3 unprofitable tags of the summary component. -/
def uiTopUnprofitable (trades : List Trade) : List UiTagStat :=
  (((uiTagStats trades).filter fun s => decide (s.totalPnl < 0)).mergeSort
    fun a b => decide (a.totalPnl ≤ b.totalPnl)).take 3

/-- A trade tagged strategy:Breakout. -/
def breakoutTrade (pnl : ℚ) : Trade :=
  ⟨"", "2024-01-01", "10:00", "", pnl, none, "", [],
    [("strategy", TagValue.many ["Breakout"])], none⟩

/-- Two Breakout trades of +50 and +100. -/
def breakoutTrades2 : List Trade :=
  [breakoutTrade 50, breakoutTrade 100]

/-- The same plus a third Breakout trade of +75. -/
def breakoutTrades3 : List Trade :=
  [breakoutTrade 50, breakoutTrade 100, breakoutTrade 75]

/-- Replaces the first occurrence of a character, as the JavaScript
String.prototype.replace with a plain string pattern does. -/
def replaceFirstChar (oldc newc : Char) : List Char → List Char
  | [] => []
  | c :: cs => if c = oldc then newc :: cs else c :: replaceFirstChar oldc newc cs

/-- Numeric value of a digit run. -/
def digitsToNat (l : List Char) : ℕ :=
  l.foldl (fun acc c => acc * 10 + digitVal c) 0

/-- Model of parseFloat on the character repertoire reachable from
parsePnlString (sign, digits, decimal point; the cleaning step removes
every exponent letter): the longest valid leading prefix is converted,
and none models NaN. -/
def jsParseFloat (s : String) : Option ℚ :=
  let l := s.data.dropWhile isJsSpace
  let sl : ℚ × List Char :=
    match l with
    | '-' :: rest => (-1, rest)
    | '+' :: rest => (1, rest)
    | _ => (1, l)
  let ip := sl.2.takeWhile Char.isDigit
  let l2 := sl.2.dropWhile Char.isDigit
  let fp :=
    match l2 with
    | '.' :: rest => rest.takeWhile Char.isDigit
    | _ => []
  if ip.isEmpty ∧ fp.isEmpty then none
  else some (sl.1 * ((digitsToNat ip : ℚ) + (digitsToNat fp : ℚ) / (10 : ℚ) ^ fp.length))

/-- Model of parsePnlString: trim, unwrap an accounting-negative
parenthesis pair into a leading minus, strip every character other than
digits, period, comma and hyphen, resolve the decimal separator by
comparing the last comma and last period positions, parse, and map NaN to
0. -/
def parsePnlString (s : Option String) : ℚ :=
  match s with
  | none => 0
  | some str =>
    if str = "" then 0
    else
      let c0 := jsTrim str
      let c1 : List Char :=
        if jsStartsWith c0 "(" && jsEndsWith c0 ")" then
          '-' :: (c0.data.drop 1).dropLast
        else c0.data
      let c2 := c1.filter fun c => c.isDigit || c = '.' || c = ',' || c = '-'
      let lastComma : ℤ :=
        match c2.reverse.findIdx? fun c => c = ',' with
        | some i => (c2.length : ℤ) - 1 - i
        | none => -1
      let lastPeriod : ℤ :=
        match c2.reverse.findIdx? fun c => c = '.' with
        | some i => (c2.length : ℤ) - 1 - i
        | none => -1
      let c3 :=
        if lastPeriod < lastComma then
          replaceFirstChar ',' '.' (c2.filter fun c => ¬ c = '.')
        else c2.filter fun c => ¬ c = ','
      match jsParseFloat ⟨c3⟩ with
      | some q => q
      | none => 0

/-- A table cell: its text content, colSpan attribute, and whether it is a
th element (header rows may be th cells; the data pass reads only td
cells). -/
structure Cell where
  text : String
  colSpan : ℕ
  isTh : Bool
deriving DecidableEq, Repr

/-- Trimmed lower-cased cell text, the form every header comparison
uses. -/
def normCell (c : Cell) : String :=
  jsToLower (jsTrim c.text)

/-- The four column positions of a header row, when the row contains all
of open time, type, symbol and profit. -/
def rowHeaderIdxs (row : List Cell) : Option (ℕ × ℕ × ℕ × ℕ) :=
  let hs := row.map normCell
  match hs.findIdx? (fun h => jsIncludes h "open time"),
      hs.findIdx? (fun h => jsIncludes h "type"),
      hs.findIdx? (fun h => jsIncludes h "symbol"),
      hs.findIdx? (fun h => jsIncludes h "profit") with
  | some a, some b, some c, some d => some (a, b, c, d)
  | _, _, _, _ => none

/-- First row carrying all four headers, scanning from index i. -/
def findHeaderRowAux : ℕ → List (List Cell) → Option (ℕ × (ℕ × ℕ × ℕ × ℕ))
  | _, [] => none
  | i, r :: rest =>
    match rowHeaderIdxs r with
    | some idxs => some (i, idxs)
    | none => findHeaderRowAux (i + 1) rest

/-- querySelectorAll td on a row. -/
def tdCells (row : List Cell) : List Cell :=
  row.filter fun c => ¬ c.isTh

/-- cells[i]?.textContent || the empty string. -/
def cellText (cells : List Cell) (i : ℕ) : String :=
  match cells.get? i with
  | some c => c.text
  | none => ""

/-- cells[0]?.colSpan > 5, with the undefined comparison false. -/
def colSpanTooWide (cells : List Cell) : Bool :=
  match cells.head? with
  | some c => decide (5 < c.colSpan)
  | none => false

/-- One data row of the MT4 loop body: skip short or colSpan-spanning
rows, skip rows whose type is not exactly buy or sell, skip rows without a
date and a time part, skip zero-P&L or empty-symbol rows; otherwise build
the trade. -/
def parseMt4Row (idGen : ℕ → String)
    (openTimeIdx typeIdx symbolIdx profitIdx i : ℕ) (row : List Cell) :
    Option Trade :=
  let cells := tdCells row
  if cells.length < 4 ∨ colSpanTooWide cells = true then none
  else
    let ty := jsToLower (jsTrim (cellText cells typeIdx))
    if ty ≠ "buy" ∧ ty ≠ "sell" then none
    else
      let parts := jsSplit (jsTrim (cellText cells openTimeIdx)) ' '
      let datePart := (parts.get? 0).getD ""
      let timePart := (parts.get? 1).getD ""
      if datePart = "" ∨ timePart = "" then none
      else
        let date : String := ⟨datePart.data.map fun c =>
          if c = '.' ∨ c = '/' then '-' else c⟩
        let time : String := ⟨timePart.data.take 5⟩
        let pair := jsToUpper (jsTrim (cellText cells symbolIdx))
        let pnl := parsePnlString ((cells.get? profitIdx).map Cell.text)
        if pnl = 0 ∨ pair = "" then none
        else some ⟨idGen i, date, time, pair, pnl,
          some (if ty = "buy" then TradeType.long else TradeType.short),
          "", [], [], none⟩

/-- Model of parseMt4Trades from the located table onward: find the header
row (throwing when none of the rows carries all four required headers),
parse the rows below it, and throw when no valid trade remains. -/
def parseMt4Trades (idGen : ℕ → String) (rows : List (List Cell)) :
    Except String (List Trade) :=
  match findHeaderRowAux 0 rows with
  | none => Except.error
      "Could not find the header row in the trades table. Required columns: Open Time, Type, Symbol, Profit."
  | some (hIdx, a, b, c, d) =>
    let ts := (List.enumFrom (hIdx + 1) (rows.drop (hIdx + 1))).filterMap
      fun p => parseMt4Row idGen a b c d p.1 p.2
    if ts.isEmpty then Except.error
      "No valid buy or sell trades were found in the report."
    else Except.ok ts

/-- First cell of a sheet row, with the empty string for a missing or
empty cell. -/
def headCellStr (r : List String) : String :=
  (r.get? 0).getD ""

/-- row[i] with the JavaScript falsy fallback to the empty string; a none
index models the -1 a failed findIndex returns, whose lookup yields
undefined. -/
def strAt (row : List String) (i : Option ℕ) : String :=
  match i with
  | some j => (row.get? j).getD ""
  | none => ""

/-- The MT5 header predicate: every required keyword group has one alias
contained verbatim (Array.prototype.includes) in the normalized row. -/
def mt5HasKeywords (hs : List String) : Bool :=
  (hs.contains "time" || hs.contains "open time") &&
  (hs.contains "symbol" || hs.contains "item") &&
  hs.contains "type" &&
  (hs.contains "profit" || hs.contains "p/l" || hs.contains "p&l")

/-- Trimmed lower-cased row, the form the header search uses. -/
def normStrRow (r : List String) : List String :=
  r.map fun cell => jsToLower (jsTrim cell)

/-- The balance, deposit and withdrawal markers of non-trade rows. -/
def mt5NonTradeWords : List String :=
  ["balance", "deposit", "withdrawal"]

/-- Dots replaced by slashes before date parsing. -/
def replaceDots (s : String) : String :=
  ⟨s.data.map fun c => if c = '.' then '/' else c⟩

/-- One row of the MT5 forEach body. The date parser (new Date plus
date-fns format, an implementation-defined partial function) is a
parameter returning the formatted date and time of a valid date, or none
for an invalid one. -/
def parseMt5Row (idGen : ℕ → String)
    (dateParse : String → Option (String × String)) (headerLen : ℕ)
    (timeCol symCol typeCol profitCol commentCol : Option ℕ) (i : ℕ)
    (row : List String) : Option Trade :=
  if 2 * row.length < headerLen ∨ row.all (fun cell => cell = "") = true then none
  else
    let ty := jsToLower (jsTrim (strAt row typeCol))
    let comment := jsToLower (jsTrim (strAt row commentCol))
    if (mt5NonTradeWords.any fun w => jsIncludes ty w || jsIncludes comment w) = true ∨
        (ty ≠ "buy" ∧ ty ≠ "sell") then none
    else
      match dateParse (replaceDots (strAt row timeCol)) with
      | none => none
      | some (date, time) =>
        let pair := jsToUpper (jsTrim (strAt row symCol))
        let rawProfit := strAt row profitCol
        let pnl := parsePnlString (some (if rawProfit = "" then "0" else rawProfit))
        if pnl = 0 ∨ pair = "" then none
        else some ⟨idGen i, date, time, pair, pnl,
          some (if ty = "buy" then TradeType.long else TradeType.short),
          "", [], [], none⟩

/-- Model of parseMt5Trades on the sheet rows: locate the Positions
section, locate its header row (throwing when absent), resolve the column
indexes by exact alias match, parse the data rows, and throw when no valid
trade remains. -/
def parseMt5Trades (idGen : ℕ → String)
    (dateParse : String → Option (String × String)) (rows : List (List String)) :
    Except String (List Trade) :=
  match rows.findIdx? (fun r =>
      jsIncludes (jsToLower (jsTrim (headCellStr r))) "positions") with
  | none => Except.error "Could not find the Positions section in the report."
  | some startIdx =>
    let endIdx :=
      match (rows.drop (startIdx + 1)).findIdx? (fun r =>
          jsIncludes (jsToLower (jsTrim (headCellStr r))) "orders" ||
          jsIncludes (jsToLower (jsTrim (headCellStr r))) "deals" ||
          jsIncludes (jsToLower (jsTrim (headCellStr r))) "summary") with
      | some j => startIdx + 1 + j
      | none => rows.length
    let seg := (rows.drop startIdx).take (endIdx - startIdx)
    match seg.findIdx? fun r => mt5HasKeywords (normStrRow r) with
    | none => Except.error
        "Could not locate the header row within the Positions section. Please ensure it contains Time, Symbol, Type, and Profit columns."
    | some k =>
      let headerRowIndex := startIdx + k
      let header := normStrRow ((rows.get? headerRowIndex).getD [])
      let dataRows := (rows.drop (headerRowIndex + 1)).take
        (endIdx - (headerRowIndex + 1))
      let timeCol := header.findIdx? fun h => h = "time" ∨ h = "open time"
      let symCol := header.findIdx? fun h => h = "symbol" ∨ h = "item"
      let typeCol := header.findIdx? fun h => h = "type"
      let profitCol := header.findIdx? fun h => h = "profit" ∨ h = "p/l" ∨ h = "p&l"
      let commentCol := header.findIdx? fun h => h = "comment"
      let ts := dataRows.enum.filterMap fun p =>
        parseMt5Row idGen dateParse header.length timeCol symCol typeCol
          profitCol commentCol p.1 p.2
      if ts.isEmpty then Except.error
        "No valid buy or sell trades were found in the Positions section."
      else Except.ok ts

/-- A single header row that mentions everything but profit. -/
def headerlessRows : List (List Cell) :=
  [[⟨"Ticket", 1, false⟩, ⟨"Open Time", 1, false⟩, ⟨"Type", 1, false⟩,
    ⟨"Symbol", 1, false⟩]]

/-- The invariant every imported trade satisfies: nonzero P&L, a nonempty
symbol fixed by upper-casing, a buy/sell direction, and an empty tags
record. -/
def validImportedTrade (tr : Trade) : Prop :=
  tr.pnl ≠ 0 ∧ tr.pair ≠ "" ∧ jsToUpper tr.pair = tr.pair ∧
    (tr.type = some TradeType.long ∨ tr.type = some TradeType.short) ∧
    tr.tags = []

/-- A fixed id generator for concrete parser runs. -/
def idGen0 : ℕ → String := fun _ => "id"

/-- A well-formed two-row MT4 table: the header row and one buy row. -/
def mt4DataRow : List Cell :=
  [⟨"2024.01.02 10:30:15", 1, false⟩, ⟨"buy", 1, false⟩, ⟨"eurusd", 1, false⟩,
    ⟨"5", 1, false⟩]

def mt4Rows : List (List Cell) :=
  [[⟨"Open Time", 1, false⟩, ⟨"Type", 1, false⟩, ⟨"Symbol", 1, false⟩,
    ⟨"Profit", 1, false⟩], mt4DataRow]

/-- The trade the buy row yields. -/
def mt4Parsed : Trade :=
  ⟨"id", "2024-01-02", "10:30", "EURUSD", 5, some TradeType.long, "", [], [], none⟩

/-! ## Theorems -/

theorem lexLe_total (x y : List Char) : lexLe x y = true ∨ lexLe y x = true := by
  induction x generalizing y with
  | nil => left; rfl
  | cons a as ih =>
    cases y with
    | nil => right; rfl
    | cons b bs =>
      by_cases hab : a = b
      · subst hab
        rcases ih bs with h | h
        · left; simp [lexLe, h]
        · right; simp [lexLe, h]
      · rcases lt_or_gt_of_ne (show a ≠ b from hab) with h | h
        · left; simp [lexLe, hab, h]
        · right; simp [lexLe, Ne.symm hab, h]
theorem lexLe_trans {x y z : List Char} (h1 : lexLe x y = true)
    (h2 : lexLe y z = true) : lexLe x z = true := by
  induction x generalizing y z with
  | nil => rfl
  | cons a as ih =>
    cases y with
    | nil => simp [lexLe] at h1
    | cons b bs =>
      cases z with
      | nil => simp [lexLe] at h2
      | cons c cs =>
        simp only [lexLe] at h1 h2 ⊢
        by_cases hab : a = b
        · subst hab
          by_cases hbc : a = c
          · subst hbc
            simpa using ih (by simpa using h1) (by simpa using h2)
          · simpa [hbc] using h2
        · by_cases hbc : b = c
          · subst hbc
            simpa [hab] using h1
          · have hab' : a < b := by simpa [hab] using h1
            have hbc' : b < c := by simpa [hbc] using h2
            have hac : a < c := lt_trans hab' hbc'
            simp [ne_of_lt hac, hac]
theorem lexLe_antisymm {x y : List Char} (h1 : lexLe x y = true)
    (h2 : lexLe y x = true) : x = y := by
  induction x generalizing y with
  | nil =>
    cases y with
    | nil => rfl
    | cons b bs => simp [lexLe] at h2
  | cons a as ih =>
    cases y with
    | nil => simp [lexLe] at h1
    | cons b bs =>
      simp only [lexLe] at h1 h2
      by_cases hab : a = b
      · subst hab
        simp only [if_pos rfl] at h1 h2
        exact congrArg (a :: ·) (ih h1 h2)
      · have h1' : a < b := by simpa [hab] using h1
        have h2' : b < a := by simpa [Ne.symm hab] using h2
        exact absurd h1' (not_lt_of_gt h2')
theorem all_take_iff_takeWhile {α : Type} (p : α → Bool) :
    ∀ (n : ℕ) (l : List α), n ≤ l.length →
      ((l.take n).all p = true ↔ n ≤ (l.takeWhile p).length) := by
  intro n
  induction n with
  | zero => intro l _; simp
  | succ m ih =>
    intro l hlen
    cases l with
    | nil => simp at hlen
    | cons a t =>
      have hm : m ≤ t.length := by simpa using hlen
      by_cases hpa : p a = true
      · simp [List.takeWhile_cons, hpa, ih t hm, Nat.succ_le_succ_iff]
      · simp [List.takeWhile_cons, hpa]
theorem detectStreak_eq_streakSpec (l : List Trade) :
    detectStreak l = streakSpec l := by
  by_cases hlen : l.length < 3
  · simp [detectStreak, streakSpec, hlen]
  · have h3 : 3 ≤ l.length := le_of_not_lt hlen
    have h3r : 3 ≤ l.reverse.length := by simpa using h3
    have hrecent : l.drop (l.length - 3) = (l.reverse.take 3).reverse := by
      rw [List.take_reverse]
      simp
    have hlast : (l.drop (l.length - 3)).getLast? = l.getLast? := by
      rw [hrecent, List.getLast?_reverse, ← List.head?_reverse]
      cases hrev : l.reverse with
      | nil => rw [hrev] at h3r; simp at h3r
      | cons a t => simp
    have hall : ∀ p : Trade → Bool,
        (l.drop (l.length - 3)).all p = (l.reverse.take 3).all p := by
      intro p
      rw [hrecent, List.all_reverse]
    rcases hl : l.getLast? with _ | last
    · rcases l with _ | ⟨a, t⟩
      · simp at h3
      · simp at hl
    · simp only [detectStreak, streakSpec, if_neg hlen, hlast, hl, hall]
      by_cases hpos : 0 < last.pnl
      · have hneg : ¬ last.pnl < 0 := by exact not_lt_of_gt hpos
        by_cases hwin : (l.reverse.take 3).all (matchesKind StreakKind.win) = true
        · have hrun : 3 ≤ (l.reverse.takeWhile (matchesKind StreakKind.win)).length :=
            (all_take_iff_takeWhile _ 3 l.reverse h3r).mp hwin
          simp [hneg, hpos, hwin, hrun]
        · have hrun : ¬ 3 ≤ (l.reverse.takeWhile (matchesKind StreakKind.win)).length := by
            intro hcon
            exact hwin ((all_take_iff_takeWhile _ 3 l.reverse h3r).mpr hcon)
          simp [hneg, hpos, hwin, hrun]
      · by_cases hneg : last.pnl < 0
        · by_cases hloss : (l.reverse.take 3).all (matchesKind StreakKind.loss) = true
          · have hrun : 3 ≤ (l.reverse.takeWhile (matchesKind StreakKind.loss)).length :=
              (all_take_iff_takeWhile _ 3 l.reverse h3r).mp hloss
            simp [hneg, hpos, hloss, hrun]
          · have hrun : ¬ 3 ≤ (l.reverse.takeWhile (matchesKind StreakKind.loss)).length := by
              intro hcon
              exact hloss ((all_take_iff_takeWhile _ 3 l.reverse h3r).mpr hcon)
            simp [hneg, hpos, hloss, hrun]
        · simp [hneg, hpos]
theorem tradeLe_trans (a b c : Trade) (h1 : tradeLe a b = true)
    (h2 : tradeLe b c = true) : tradeLe a c = true :=
  lexLe_trans h1 h2
theorem tradeLe_total (a b : Trade) : (tradeLe a b || tradeLe b a) = true := by
  rcases lexLe_total (jsKey a) (jsKey b) with h | h <;>
    simp [tradeLe, h]
/-- C3: on a list sorted ascending by the date-then-time key, the streak
detector agrees with the specified trailing-maximal-run behaviour: it
reports the kind and full length of the trailing run matching the sign of
the most recent trade when the list has at least 3 trades and the run is at
least 3 long, and reports nothing otherwise. -/
theorem useTradeCycleTracker_eq_streakSpec_of_sorted (trades : List Trade)
    (hsorted : List.Pairwise (fun a b => tradeLe a b = true) trades) :
    useTradeCycleTracker trades = streakSpec trades := by
  unfold useTradeCycleTracker
  rw [List.mergeSort_of_sorted hsorted]
  by_cases h : trades.length < 3
  · simp [h, streakSpec]
  · simp [h, detectStreak_eq_streakSpec]
theorem useTradeCycleTracker_eq_streakSpec_of_sorted_witness :
    useTradeCycleTracker tradesLLLW = some ⟨StreakKind.loss, 3⟩ :=
  (useTradeCycleTracker_eq_streakSpec_of_sorted tradesLLLW (by decide)).trans
    (by decide)
/-- C2 counterexample: the two lists are permutations of each other, yet
the streak detector reports a 3-loss streak on the first and nothing on the
second, because the stable sort preserves the input order of trades whose
date-then-time keys are tied. -/
theorem streak_not_permutation_invariant :
    tiedKeysA.Perm tiedKeysB ∧
      useTradeCycleTracker tiedKeysA ≠ useTradeCycleTracker tiedKeysB := by
  constructor
  · decide
  · have ha : tiedKeysA.mergeSort tradeLe = tiedKeysA :=
      List.mergeSort_of_sorted (by decide)
    have hb : tiedKeysB.mergeSort tradeLe = tiedKeysB :=
      List.mergeSort_of_sorted (by decide)
    simp only [useTradeCycleTracker, ha, hb]
    decide
/-- C2 as amended: when no two trades share a date-then-time key, the
streak detector is invariant under permutation of its input. -/
theorem streak_perm_invariant_of_nodup_keys (l1 l2 : List Trade)
    (hperm : l1.Perm l2) (hnodup : (l1.map jsKey).Nodup) :
    useTradeCycleTracker l1 = useTradeCycleTracker l2 := by
  have hlen : l1.length = l2.length := hperm.length_eq
  unfold useTradeCycleTracker
  rw [hlen]
  by_cases h : l2.length < 3
  · simp [h]
  · have hs : l1.mergeSort tradeLe = l2.mergeSort tradeLe := by
      have hanti : IsAntisymm Trade
          (fun a b => (tradeLe a b = true) ∧ jsKey a ≠ jsKey b) := by
        constructor
        intro a b hab hba
        exact absurd (lexLe_antisymm hab.1 hba.1) hab.2
      have hp : (l1.mergeSort tradeLe).Perm (l2.mergeSort tradeLe) :=
        (List.mergeSort_perm l1 tradeLe).trans
          (hperm.trans (List.mergeSort_perm l2 tradeLe).symm)
      have hkeys1 : List.Pairwise (fun a b : Trade => jsKey a ≠ jsKey b) l1 := by
        rw [← List.pairwise_map]
        exact hnodup
      have hkeysS1 : List.Pairwise (fun a b : Trade => jsKey a ≠ jsKey b)
          (l1.mergeSort tradeLe) :=
        (List.Perm.pairwise_iff (fun h => Ne.symm h)
          (List.mergeSort_perm l1 tradeLe)).mpr hkeys1
      have hkeysS2 : List.Pairwise (fun a b : Trade => jsKey a ≠ jsKey b)
          (l2.mergeSort tradeLe) :=
        (List.Perm.pairwise_iff (fun h => Ne.symm h) hp).mp hkeysS1
      have hsort1 : List.Pairwise (fun a b : Trade => tradeLe a b = true)
          (l1.mergeSort tradeLe) :=
        List.sorted_mergeSort (fun a b c => tradeLe_trans a b c) tradeLe_total l1
      have hsort2 : List.Pairwise (fun a b : Trade => tradeLe a b = true)
          (l2.mergeSort tradeLe) :=
        List.sorted_mergeSort (fun a b c => tradeLe_trans a b c) tradeLe_total l2
      exact @List.eq_of_perm_of_sorted Trade
        (fun a b => (tradeLe a b = true) ∧ jsKey a ≠ jsKey b) hanti _ _
        hp (hsort1.and hkeysS1) (hsort2.and hkeysS2)
    rw [hs]
theorem streak_perm_invariant_of_nodup_keys_witness :
    distinctKeysA.Perm distinctKeysB ∧ (distinctKeysA.map jsKey).Nodup ∧
      useTradeCycleTracker distinctKeysA = useTradeCycleTracker distinctKeysB :=
  ⟨by decide, by decide,
    streak_perm_invariant_of_nodup_keys distinctKeysA distinctKeysB
      (by decide) (by decide)⟩
/-- C1: for every trade list and every outcome of the external enrichment
call (failure, or success with any partial result, including one carrying a
different performanceGrade), the final result of handleAnalyze keeps the
keyMetrics, performanceGrade and tagPerformance of the offline analysis of
the same trade list. -/
theorem handleAnalyze_preserves_offline (t : String → List String → String)
    (fc : ℚ → String) (trades : List Trade) (aiOutcome : Option PartialAIResult) :
    (handleAnalyze t fc trades aiOutcome).keyMetrics =
        (analyzeTradesOffline t fc trades).keyMetrics ∧
      (handleAnalyze t fc trades aiOutcome).performanceGrade =
        (analyzeTradesOffline t fc trades).performanceGrade ∧
      (handleAnalyze t fc trades aiOutcome).tagPerformance =
        (analyzeTradesOffline t fc trades).tagPerformance := by
  cases aiOutcome <;> simp [handleAnalyze, mergeAnalysis]
/-- C10: calculateConsistency is total and range-bounded: 0 below 5
trades, 1 when the mean absolute P&L is 0 (the guarded division), and
always within [1, 10] from 5 trades on. -/
theorem calculateConsistency_bounds (trades : List Trade) :
    (trades.length < 5 → calculateConsistency trades = 0) ∧
    (5 ≤ trades.length → avgAbsQ (pnlsOf trades) = 0 →
      calculateConsistency trades = 1) ∧
    (5 ≤ trades.length →
      1 ≤ calculateConsistency trades ∧ calculateConsistency trades ≤ 10) := by
  refine ⟨fun h => by simp [calculateConsistency, h], ?_, ?_⟩
  · intro h5 h0
    have hnl : ¬ trades.length < 5 := not_lt.mpr h5
    simp [calculateConsistency, hnl, h0]
  · intro h5
    have hnl : ¬ trades.length < 5 := not_lt.mpr h5
    by_cases h0 : avgAbsQ (pnlsOf trades) = 0
    · simp [calculateConsistency, hnl, h0]
    · simp only [calculateConsistency, if_neg hnl, if_neg h0]
      exact ⟨le_max_left 1 _, max_le (by norm_num) (min_le_left 10 _)⟩
theorem calculateConsistency_bounds_witness :
    calculateConsistency flatZeroTrades = 1 ∧
      calculateConsistency (flatZeroTrades.take 2) = 0 :=
  ⟨(calculateConsistency_bounds flatZeroTrades).2.1 (by decide)
      (by simp [avgAbsQ, pnlsOf, flatZeroTrades, mkTrade, List.map_replicate,
        List.sum_replicate]),
    (calculateConsistency_bounds (flatZeroTrades.take 2)).1 (by decide)⟩
/-- C4: on a newest-first list (sorted descending by the date-then-time
key), the trend-degradation insight is produced precisely when there are
at least 40 trades and either the lifetime win rate exceeds the recent
20-trade win rate by more than 15 points, or the lifetime profit factor is
finite and the recent profit factor is below 0.7 of it; moreover under the
sortedness hypothesis the 20-trade window consists of most-recent trades:
every trade outside the window has a key at most every key inside it. -/
theorem analyzePerformanceTrend_iff (t : String → List String → String)
    (trades : List Trade)
    (hsorted : List.Pairwise (fun a b => tradeLe b a = true) trades) :
    ((analyzePerformanceTrend t trades (winRateQ trades)
        (profitFactorQ trades)).isSome = true ↔
      (40 ≤ trades.length ∧
        (15 < winRateQ trades - winRateQ (trades.take 20) ∨
          ∃ pf rpf, profitFactorQ trades = some pf ∧
            profitFactorQ (trades.take 20) = some rpf ∧ rpf < pf * (7 / 10)))) ∧
    (∀ a ∈ trades.take 20, ∀ b ∈ trades.drop 20, tradeLe b a = true) := by
  constructor
  · by_cases hlen : trades.length < 40
    · simp only [analyzePerformanceTrend, if_pos hlen]
      simp
      omega
    · have h40 : 40 ≤ trades.length := le_of_not_lt hlen
      simp only [analyzePerformanceTrend, if_neg hlen]
      rcases hpf : profitFactorQ trades with _ | pf <;>
        rcases hrpf : profitFactorQ (trades.take 20) with _ | rpf <;>
          by_cases hwr : 15 < winRateQ trades - winRateQ (trades.take 20) <;>
            simp [hpf, hrpf, hwr, h40]
  · have h := hsorted
    rw [← List.take_append_drop 20 trades] at h
    exact (List.pairwise_append.mp h).2.2
theorem analyzePerformanceTrend_iff_witness :
    (analyzePerformanceTrend (fun _ _ => "") slumpTrades (winRateQ slumpTrades)
      (profitFactorQ slumpTrades)).isSome = true :=
  (analyzePerformanceTrend_iff (fun _ _ => "") slumpTrades (by decide)).1.mpr
    ⟨by decide, Or.inl (by
      have h1 : (slumpTrades.filter fun tr => decide (0 < tr.pnl)).length = 20 := by
        decide
      have h2 : ((slumpTrades.take 20).filter fun tr => decide (0 < tr.pnl)).length = 0 := by
        decide
      have h3 : slumpTrades.length = 40 := by decide
      have h4 : (slumpTrades.take 20).length = 20 := by decide
      simp only [winRateQ, h1, h2, h3, h4]
      norm_num)⟩
theorem rat_cast_list_sum (l : List ℚ) :
    ((l.sum : ℚ) : ℝ) = (l.map fun q : ℚ => (q : ℝ)).sum := by
  induction l with
  | nil => simp
  | cons a t ih => simp [ih]
theorem meanQ_cast (l : List ℚ) :
    ((meanQ l : ℚ) : ℝ) = (l.map fun q : ℚ => (q : ℝ)).sum / ((l.length : ℕ) : ℝ) := by
  rw [meanQ, Rat.cast_div, Rat.cast_natCast, rat_cast_list_sum]
theorem varianceQ_cast (l : List ℚ) :
    ((varianceQ l : ℚ) : ℝ) =
      ((l.map fun q : ℚ => (q : ℝ)).map fun x =>
        (x - (l.map fun q : ℚ => (q : ℝ)).sum / ((l.length : ℕ) : ℝ)) ^ 2).sum /
        ((l.length : ℕ) : ℝ) := by
  rw [varianceQ, Rat.cast_div, Rat.cast_natCast, rat_cast_list_sum]
  simp only [List.map_map, Function.comp_def]
  congr 1
  refine congrArg List.sum (List.map_congr_left fun q _ => ?_)
  rw [Rat.cast_pow, Rat.cast_sub, meanQ_cast]
theorem avgAbsQ_cast (l : List ℚ) :
    ((avgAbsQ l : ℚ) : ℝ) =
      ((l.map fun q : ℚ => (q : ℝ)).map fun x => |x|).sum / ((l.length : ℕ) : ℝ) := by
  rw [avgAbsQ, Rat.cast_div, Rat.cast_natCast, rat_cast_list_sum]
  simp only [List.map_map, Function.comp_def]
  congr 1
  refine congrArg List.sum (List.map_congr_left fun q _ => ?_)
  rw [Rat.cast_abs]
theorem specCV_eq_cast (trades : List Trade) :
    specCV trades =
      Real.sqrt ((varianceQ (pnlsOf trades) : ℝ)) / ((avgAbsQ (pnlsOf trades) : ℝ)) := by
  have hmap : (trades.map fun tr => ((tr.pnl : ℝ))) =
      (pnlsOf trades).map fun q : ℚ => (q : ℝ) := by
    rw [pnlsOf, List.map_map]
    simp only [Function.comp_def]
  rw [specCV, hmap]
  simp only [List.length_map]
  rw [← varianceQ_cast, ← avgAbsQ_cast]
/-- C6: calculateConsistency returns 0 below 5 trades, and from 5 trades
on (with a nonvanishing mean absolute P&L, so the coefficient of variation
is defined) equals round(10 * e^(-0.6 * CV)) clamped to [1, 10] with CV
the population standard deviation of P&L over the mean absolute P&L,
computed over the reals. -/
theorem calculateConsistency_matches_spec (trades : List Trade) :
    (trades.length < 5 → calculateConsistency trades = 0) ∧
    (5 ≤ trades.length → avgAbsQ (pnlsOf trades) ≠ 0 →
      calculateConsistency trades = specConsistencyScore trades) := by
  refine ⟨fun h => by simp [calculateConsistency, h], fun h5 h0 => ?_⟩
  have hnl : ¬ trades.length < 5 := not_lt.mpr h5
  rw [calculateConsistency, if_neg hnl, if_neg h0, specConsistencyScore,
    specCV_eq_cast]
theorem calculateConsistency_matches_spec_witness :
    calculateConsistency steadyTrades = 10 := by
  have hl : pnlsOf steadyTrades = List.replicate 25 (100 : ℚ) := by
    simp [pnlsOf, steadyTrades, List.map_replicate, mkTrade]
  have havg : avgAbsQ (pnlsOf steadyTrades) = 100 := by
    rw [hl]
    simp [avgAbsQ, List.map_replicate, List.sum_replicate, nsmul_eq_mul]
    norm_num
  have h := (calculateConsistency_matches_spec steadyTrades).2 (by decide)
    (by rw [havg]; norm_num)
  have hmean : meanQ (List.replicate 25 (100 : ℚ)) = 100 := by
    simp [meanQ, List.sum_replicate, nsmul_eq_mul]
    norm_num
  have hvar : varianceQ (pnlsOf steadyTrades) = 0 := by
    rw [hl]
    simp only [varianceQ, hmean]
    norm_num [List.map_replicate, List.sum_replicate]
  have h10 : round ((10 : ℝ)) = 10 := by
    norm_num [round_eq]
  rw [h, specConsistencyScore, specCV_eq_cast, hvar, havg]
  norm_num [Real.exp_zero, h10]
/-- C7 evaluation at the failing input: findGoldenHour does not restrict
itself to trades that have a time value. Five time-less trades populate
the NaN bucket, which passes the count threshold and is selected as the
best hour, so an insight for the pseudo-hour NaN is produced; restricting
the input to the trades that have a parsable time (none of them) produces
no insight. -/
theorem goldenHour_counts_timeless_trades :
    goldenHourChoice noTimeTrades = some (none, 100) ∧
      goldenHourChoice (noTimeTrades.filter
        fun tr => (jsGetHours tr.date tr.time).isSome) = none ∧
      (findGoldenHour (fun k _ => k) (fun _ => "") noTimeTrades).isSome = true := by
  have hstats : ((hourlyStats noTimeTrades).filter fun p => 5 ≤ p.2.count).map
      (fun p => (p.1, p.2.pnl / (p.2.count : ℚ))) = [(none, 100)] := by
    have hj : jsGetHours "2024-01-05" "" = none := by decide
    have h1 : hourlyStats noTimeTrades = [(none, ⟨500, 5⟩)] := by
      simp only [noTimeTrades, hourlyStats, List.replicate, List.foldl, mkTrade, hj,
        getAssoc, setAssoc, List.find?]
      norm_num
    rw [h1]
    norm_num
  have hsig : significantHours noTimeTrades = [(none, 100)] := by
    rw [significantHours, hstats, List.mergeSort_singleton]
  have hfilter : (noTimeTrades.filter
      fun tr => (jsGetHours tr.date tr.time).isSome) = [] := by
    decide
  refine ⟨?_, ?_, ?_⟩
  · rw [goldenHourChoice, hsig]
    norm_num
  · rw [hfilter]
    rw [goldenHourChoice, significantHours]
    simp [hourlyStats, List.mergeSort_nil]
  · rw [findGoldenHour, goldenHourChoice, hsig]
    norm_num
/-- C5: tags below the 3-trade threshold never enter the significant
rankings (full analysis or UI summary); the profitable top list is exactly
the positive significant tags sorted descending by total P&L truncated to
5 (3 in the UI component), and dually the unprofitable top list is exactly
the negative ones sorted ascending and truncated likewise; and on the
concrete Breakout example two trades of +50 and +100 produce no entry
while adding a +75 one produces the single entry with totalPnl 225 and
winRate 100. -/
theorem tag_rankings_characterisation :
    (∀ (trades : List Trade) (e : SigTag), e ∈ significantTags trades → 3 ≤ e.count) ∧
    (∀ (trades : List Trade) (e : UiTagStat), e ∈ uiTagStats trades → 3 ≤ e.tradeCount) ∧
    (∀ trades : List Trade, ∃ l : List SigTag,
      l.Perm ((significantTags trades).filter fun e => decide (0 < e.pnl)) ∧
        l.Pairwise (fun a b => b.pnl ≤ a.pnl) ∧ profitableTags trades = l.take 5) ∧
    (∀ trades : List Trade, ∃ l : List SigTag,
      l.Perm ((significantTags trades).filter fun e => decide (e.pnl < 0)) ∧
        l.Pairwise (fun a b => a.pnl ≤ b.pnl) ∧ unprofitableTags trades = l.take 5) ∧
    (∀ trades : List Trade, ∃ l : List UiTagStat,
      l.Perm ((uiTagStats trades).filter fun s => decide (0 < s.totalPnl)) ∧
        l.Pairwise (fun a b => b.totalPnl ≤ a.totalPnl) ∧
        uiTopProfitable trades = l.take 3) ∧
    (∀ trades : List Trade, ∃ l : List UiTagStat,
      l.Perm ((uiTagStats trades).filter fun s => decide (s.totalPnl < 0)) ∧
        l.Pairwise (fun a b => a.totalPnl ≤ b.totalPnl) ∧
        uiTopUnprofitable trades = l.take 3) ∧
    significantTags breakoutTrades2 = [] ∧
    profitableTags breakoutTrades2 = [] ∧
    significantTags breakoutTrades3 =
      [⟨"strategy:Breakout", 225, 3, 0, 3, 100, 75⟩] ∧
    profitableTags breakoutTrades3 =
      [⟨"strategy:Breakout", 225, 3, 0, 3, 100, 75⟩] := by
  have happ : "strategy" ++ ":" ++ "Breakout" = "strategy:Breakout" := rfl
  have ht2 : tagStatsMap breakoutTrades2 =
      [("strategy:Breakout", ⟨150, 2, 0, 2⟩)] := by
    simp only [tagStatsMap, breakoutTrades2, breakoutTrade, flattenTags,
      List.flatMap_cons, List.flatMap_nil, List.map_cons, List.map_nil,
      List.append_nil, happ, List.foldl_cons, List.foldl_nil,
      getAssoc, setAssoc, List.find?]
    norm_num
  have ht3 : tagStatsMap breakoutTrades3 =
      [("strategy:Breakout", ⟨225, 3, 0, 3⟩)] := by
    simp only [tagStatsMap, breakoutTrades3, breakoutTrade, flattenTags,
      List.flatMap_cons, List.flatMap_nil, List.map_cons, List.map_nil,
      List.append_nil, happ, List.foldl_cons, List.foldl_nil,
      getAssoc, setAssoc, List.find?]
    norm_num
  have hs2 : significantTags breakoutTrades2 = [] := by
    rw [significantTags, ht2]
    norm_num
  have hs3 : significantTags breakoutTrades3 =
      [⟨"strategy:Breakout", 225, 3, 0, 3, 100, 75⟩] := by
    rw [significantTags, ht3]
    norm_num
  have hdesc_trans : ∀ a b c : SigTag, (decide (b.pnl ≤ a.pnl)) = true →
      (decide (c.pnl ≤ b.pnl)) = true → (decide (c.pnl ≤ a.pnl)) = true := by
    intro a b c h1 h2
    simp only [decide_eq_true_eq] at h1 h2 ⊢
    exact le_trans h2 h1
  have hdesc_total : ∀ a b : SigTag,
      ((decide (b.pnl ≤ a.pnl)) || (decide (a.pnl ≤ b.pnl))) = true := by
    intro a b
    simp only [Bool.or_eq_true, decide_eq_true_eq]
    exact le_total b.pnl a.pnl
  have hasc_trans : ∀ a b c : SigTag, (decide (a.pnl ≤ b.pnl)) = true →
      (decide (b.pnl ≤ c.pnl)) = true → (decide (a.pnl ≤ c.pnl)) = true := by
    intro a b c h1 h2
    simp only [decide_eq_true_eq] at h1 h2 ⊢
    exact le_trans h1 h2
  have hasc_total : ∀ a b : SigTag,
      ((decide (a.pnl ≤ b.pnl)) || (decide (b.pnl ≤ a.pnl))) = true := by
    intro a b
    simp only [Bool.or_eq_true, decide_eq_true_eq]
    exact le_total a.pnl b.pnl
  have hui_trans : ∀ a b c : UiTagStat, (decide (b.totalPnl ≤ a.totalPnl)) = true →
      (decide (c.totalPnl ≤ b.totalPnl)) = true →
      (decide (c.totalPnl ≤ a.totalPnl)) = true := by
    intro a b c h1 h2
    simp only [decide_eq_true_eq] at h1 h2 ⊢
    exact le_trans h2 h1
  have hui_total : ∀ a b : UiTagStat,
      ((decide (b.totalPnl ≤ a.totalPnl)) || (decide (a.totalPnl ≤ b.totalPnl))) = true := by
    intro a b
    simp only [Bool.or_eq_true, decide_eq_true_eq]
    exact le_total b.totalPnl a.totalPnl
  have huiasc_trans : ∀ a b c : UiTagStat, (decide (a.totalPnl ≤ b.totalPnl)) = true →
      (decide (b.totalPnl ≤ c.totalPnl)) = true →
      (decide (a.totalPnl ≤ c.totalPnl)) = true := by
    intro a b c h1 h2
    simp only [decide_eq_true_eq] at h1 h2 ⊢
    exact le_trans h1 h2
  have huiasc_total : ∀ a b : UiTagStat,
      ((decide (a.totalPnl ≤ b.totalPnl)) || (decide (b.totalPnl ≤ a.totalPnl))) = true := by
    intro a b
    simp only [Bool.or_eq_true, decide_eq_true_eq]
    exact le_total a.totalPnl b.totalPnl
  refine ⟨?_, ?_, ?_, ?_, ?_, ?_, hs2, ?_, hs3, ?_⟩
  · intro trades e he
    rcases List.mem_map.mp he with ⟨p, hp, rfl⟩
    have hc := (List.mem_filter.mp hp).2
    simpa using hc
  · intro trades e he
    have hc := (List.mem_filter.mp he).2
    simpa using hc
  · intro trades
    refine ⟨((significantTags trades).filter fun e => decide (0 < e.pnl)).mergeSort
      (fun a b => decide (b.pnl ≤ a.pnl)), List.mergeSort_perm _ _, ?_, ?_⟩
    · exact (List.sorted_mergeSort hdesc_trans hdesc_total _).imp
        fun h => of_decide_eq_true h
    · rfl
  · intro trades
    refine ⟨((significantTags trades).filter fun e => decide (e.pnl < 0)).mergeSort
      (fun a b => decide (a.pnl ≤ b.pnl)), List.mergeSort_perm _ _, ?_, ?_⟩
    · exact (List.sorted_mergeSort hasc_trans hasc_total _).imp
        fun h => of_decide_eq_true h
    · rfl
  · intro trades
    refine ⟨((uiTagStats trades).filter fun s => decide (0 < s.totalPnl)).mergeSort
      (fun a b => decide (b.totalPnl ≤ a.totalPnl)), List.mergeSort_perm _ _, ?_, ?_⟩
    · exact (List.sorted_mergeSort hui_trans hui_total _).imp
        fun h => of_decide_eq_true h
    · rfl
  · intro trades
    refine ⟨((uiTagStats trades).filter fun s => decide (s.totalPnl < 0)).mergeSort
      (fun a b => decide (a.totalPnl ≤ b.totalPnl)), List.mergeSort_perm _ _, ?_, ?_⟩
    · exact (List.sorted_mergeSort huiasc_trans huiasc_total _).imp
        fun h => of_decide_eq_true h
    · rfl
  · rw [profitableTags, hs2]
    simp [List.mergeSort_nil]
  · rw [profitableTags, hs3]
    norm_num [List.mergeSort_singleton]
theorem tag_rankings_characterisation_witness :
    3 ≤ (SigTag.mk "strategy:Breakout" 225 3 0 3 100 75).count :=
  tag_rankings_characterisation.1 breakoutTrades3 _
    (by rw [tag_rankings_characterisation.2.2.2.2.2.2.2.2.1]
        exact List.mem_singleton.mpr rfl)
/-! ## Import parsers (src/unnamed/part_016) -/

theorem char_toNat_ofNat_of_lt {m : ℕ} (h : m < 55296) :
    (Char.ofNat m).toNat = m := by
  have hv : Nat.isValidChar m := Or.inl h
  rw [Char.ofNat, dif_pos hv]
  rfl
theorem jsUpChar_idem (c : Char) : jsUpChar (jsUpChar c) = jsUpChar c := by
  unfold jsUpChar
  by_cases h : 97 ≤ c.toNat ∧ c.toNat ≤ 122
  · rw [if_pos h]
    have hm : c.toNat - 32 < 55296 := by omega
    have ht : (Char.ofNat (c.toNat - 32)).toNat = c.toNat - 32 :=
      char_toNat_ofNat_of_lt hm
    rw [if_neg]
    rw [ht]
    omega
  · rw [if_neg h, if_neg h]
theorem jsToUpper_idem (s : String) : jsToUpper (jsToUpper s) = jsToUpper s := by
  cases s with
  | mk l =>
    simp only [jsToUpper, List.map_map, Function.comp_def]
    exact congrArg String.mk (List.map_congr_left fun c _ => jsUpChar_idem c)
theorem findHeaderRowAux_eq_none {rows : List (List Cell)}
    (h : ∀ row ∈ rows, rowHeaderIdxs row = none) :
    ∀ i, findHeaderRowAux i rows = none := by
  induction rows with
  | nil => intro i; rfl
  | cons r rest ih =>
    intro i
    have hr := h r (List.mem_cons_self r rest)
    simp only [findHeaderRowAux, hr]
    exact ih (fun row hrow => h row (List.mem_cons_of_mem _ hrow)) (i + 1)
theorem rowHeaderIdxs_eq_none_of_no_profit {row : List Cell}
    (h : ∀ c ∈ row, jsIncludes (normCell c) "profit" = false) :
    rowHeaderIdxs row = none := by
  have hp : (row.map normCell).findIdx? (fun s => jsIncludes s "profit") = none := by
    rw [List.findIdx?_eq_none_iff]
    intro x hx
    rcases List.mem_map.mp hx with ⟨c, hc, rfl⟩
    exact h c hc
  simp only [rowHeaderIdxs, hp]
  rcases (row.map normCell).findIdx? (fun s => jsIncludes s "open time") with _ | a <;>
    rcases (row.map normCell).findIdx? (fun s => jsIncludes s "type") with _ | b <;>
      rcases (row.map normCell).findIdx? (fun s => jsIncludes s "symbol") with _ | c <;>
        rfl
/-- C8: the MT4 tabular parser throws the header error whenever no row of
the located table carries all four required headers, in particular
whenever no cell mentions profit at all; and every successful parse
returns a nonempty trade list (equivalently, it throws when the filters
leave zero valid trades). -/
theorem parseMt4Trades_error_conditions (idGen : ℕ → String)
    (rows : List (List Cell)) :
    ((∀ row ∈ rows, rowHeaderIdxs row = none) →
      parseMt4Trades idGen rows = Except.error
        "Could not find the header row in the trades table. Required columns: Open Time, Type, Symbol, Profit.") ∧
    ((∀ row ∈ rows, ∀ c ∈ row, jsIncludes (normCell c) "profit" = false) →
      parseMt4Trades idGen rows = Except.error
        "Could not find the header row in the trades table. Required columns: Open Time, Type, Symbol, Profit.") ∧
    (∀ ts, parseMt4Trades idGen rows = Except.ok ts → ts ≠ []) := by
  refine ⟨?_, ?_, ?_⟩
  · intro h
    rw [parseMt4Trades, findHeaderRowAux_eq_none h 0]
  · intro h
    rw [parseMt4Trades, findHeaderRowAux_eq_none
      (fun row hrow => rowHeaderIdxs_eq_none_of_no_profit (h row hrow)) 0]
  · intro ts hts
    rw [parseMt4Trades] at hts
    split at hts
    · exact absurd hts (by simp)
    · dsimp only [] at hts
      split at hts
      · exact absurd hts (by simp)
      · rename_i hne
        simp only [Except.ok.injEq] at hts
        subst hts
        intro hnil
        rw [hnil] at hne
        exact hne rfl
theorem parseMt4Trades_error_conditions_witness :
    parseMt4Trades (fun i => "trade_" ++ toString i) headerlessRows =
      Except.error
        "Could not find the header row in the trades table. Required columns: Open Time, Type, Symbol, Profit." :=
  (parseMt4Trades_error_conditions (fun i => "trade_" ++ toString i)
    headerlessRows).2.1 (by decide)
theorem parseMt4Row_valid {idGen : ℕ → String} {a b c d i : ℕ}
    {row : List Cell} {tr : Trade}
    (h : parseMt4Row idGen a b c d i row = some tr) : validImportedTrade tr := by
  rw [parseMt4Row] at h
  split at h
  · exact absurd h (by simp)
  · try dsimp only [] at h
    split at h
    · exact absurd h (by simp)
    · try dsimp only [] at h
      split at h
      · exact absurd h (by simp)
      · try dsimp only [] at h
        split at h
        · exact absurd h (by simp)
        · rename_i hguard
          push_neg at hguard
          simp only [Option.some.injEq] at h
          subst h
          refine ⟨hguard.1, hguard.2, jsToUpper_idem _, ?_, rfl⟩
          split
          · exact Or.inl rfl
          · exact Or.inr rfl
theorem parseMt5Row_valid {idGen : ℕ → String}
    {dateParse : String → Option (String × String)} {hl : ℕ}
    {tc sc yc pc cc : Option ℕ} {i : ℕ} {row : List String} {tr : Trade}
    (h : parseMt5Row idGen dateParse hl tc sc yc pc cc i row = some tr) :
    validImportedTrade tr := by
  rw [parseMt5Row] at h
  split at h
  · exact absurd h (by simp)
  · try dsimp only [] at h
    split at h
    · exact absurd h (by simp)
    · split at h
      · exact absurd h (by simp)
      · try dsimp only [] at h
        split at h
        all_goals
          split at h
          · exact absurd h (by simp)
          · rename_i hguard
            push_neg at hguard
            simp only [Option.some.injEq] at h
            subst h
            refine ⟨hguard.1, hguard.2, jsToUpper_idem _, ?_, rfl⟩
            split
            · exact Or.inl rfl
            · exact Or.inr rfl
/-- C9: every trade either import parser returns satisfies the invariant:
its P&L is nonzero, its pair is nonempty and equal to its own upper-cased
form, its type is long (from a buy row) or short (from a sell row), and
its tags record is empty. -/
theorem import_parsers_invariant :
    (∀ (idGen : ℕ → String) (rows : List (List Cell)) (ts : List Trade),
      parseMt4Trades idGen rows = Except.ok ts →
        ∀ tr ∈ ts, validImportedTrade tr) ∧
    (∀ (idGen : ℕ → String) (dateParse : String → Option (String × String))
        (rows : List (List String)) (ts : List Trade),
      parseMt5Trades idGen dateParse rows = Except.ok ts →
        ∀ tr ∈ ts, validImportedTrade tr) := by
  constructor
  · intro idGen rows ts hok tr htr
    rw [parseMt4Trades] at hok
    split at hok
    · exact absurd hok (by simp)
    · dsimp only [] at hok
      split at hok
      · exact absurd hok (by simp)
      · simp only [Except.ok.injEq] at hok
        subst hok
        rcases List.mem_filterMap.mp htr with ⟨p, _, hp⟩
        exact parseMt4Row_valid hp
  · intro idGen dateParse rows ts hok tr htr
    rw [parseMt5Trades] at hok
    split at hok
    · exact absurd hok (by simp)
    · dsimp only [] at hok
      split at hok
      · exact absurd hok (by simp)
      · try dsimp only [] at hok
        split at hok
        · exact absurd hok (by simp)
        · simp only [Except.ok.injEq] at hok
          subst hok
          rcases List.mem_filterMap.mp htr with ⟨p, _, hp⟩
          exact parseMt5Row_valid hp
theorem import_parsers_invariant_witness : validImportedTrade mt4Parsed := by
  have hpnl : parsePnlString (some "5") = 5 := by
    have h : parsePnlString (some "5") = 1 * ((5 : ℚ) + 0 / 1) := rfl
    rw [h]
    norm_num
  have hcell : Option.map Cell.text ((tdCells mt4DataRow).get? 3) = some "5" := by
    decide
  have hpair : jsToUpper (jsTrim (cellText (tdCells mt4DataRow) 2)) = "EURUSD" := by
    decide
  have hrow : parseMt4Row idGen0 0 1 2 3 1 mt4DataRow = some mt4Parsed := by
    rw [parseMt4Row]
    rw [if_neg (by decide)]
    try dsimp only []
    rw [if_neg (by decide)]
    try dsimp only []
    rw [if_neg (by decide)]
    try dsimp only []
    rw [hcell, hpnl, hpair]
    rw [if_neg (by
      push_neg
      exact ⟨by norm_num, by decide⟩)]
    decide
  have hfind : findHeaderRowAux 0 mt4Rows = some (0, 0, 1, 2, 3) := by decide
  have henum : List.enumFrom 1 (mt4Rows.drop 1) = [(1, mt4DataRow)] := by decide
  have hparse : parseMt4Trades idGen0 mt4Rows = Except.ok [mt4Parsed] := by
    rw [parseMt4Trades, hfind]
    dsimp only []
    rw [henum, List.filterMap_cons, hrow]
    rfl
  exact import_parsers_invariant.1 idGen0 mt4Rows [mt4Parsed] hparse mt4Parsed
    (List.mem_singleton.mpr rfl)
